import Mathlib

/-!
Verification of the GenesisDB TypeScript client (`src/client.ts`, shipped
build `dist/client.js`).

The core of the library is the incremental NDJSON decoding pipeline shared
by the three read paths:

* `streamEvents` (historical fetch, collects `CloudEvent`s into a list),
* `q` (query execution, collects raw JSON values into a list),
* `observeEvents` (live observation, an async generator of `CloudEvent`s).

Each path drives the same buffer-and-split loop: fragments of the response
body are appended to a string buffer; while the buffer contains a newline,
the prefix up to the newline is sliced off, trimmed, and (unless blank)
parsed as JSON; a parse or materialization failure is caught, logged, and
skipped.

The embedding below models text as `List Char` (the loop is purely
character-based: `indexOf('\n')`, `slice`, `trim`).  The two external
collaborators — `JSON.parse` and the `CloudEvent` constructor from the
`cloudevents` package — are opaque parameters: `parse : List Char → Option
Json` (`none` models a thrown `SyntaxError`, caught by the loop) and
`mk : Json → Option E` (`none` models a thrown `ValidationError`, likewise
caught).  Everything else is translated directly from the source.
-/

namespace GenesisDB

/-- JSON values as produced by `JSON.parse`: the result type of the opaque
parse parameter.  Keys of an object produced by `JSON.parse` are unique. -/
inductive Json where
  | null : Json
  | bool (b : Bool) : Json
  | num (n : Int) : Json
  | str (s : String) : Json
  | arr (elems : List Json) : Json
  | obj (fields : List (String × Json)) : Json

/-- Characters removed by JavaScript `String.prototype.trim`: the WhiteSpace
and LineTerminator productions (tab, LF, VT, FF, CR, space, NBSP, the
Unicode space separators, LS, PS, NNBSP, MMSP, ideographic space, BOM). -/
def isJsWhitespace (c : Char) : Bool :=
  let n := c.toNat
  (9 ≤ n && n ≤ 13) || n = 32 || n = 0xA0 || n = 0x1680 ||
  (0x2000 ≤ n && n ≤ 0x200A) || n = 0x2028 || n = 0x2029 ||
  n = 0x202F || n = 0x205F || n = 0x3000 || n = 0xFEFF

/-- JavaScript `String.prototype.trim`: drop whitespace from the front,
then from the back (`List.rdropWhile p l = (l.reverse.dropWhile p).reverse`). -/
def trimChars (s : List Char) : List Char :=
  List.rdropWhile isJsWhitespace (s.dropWhile isJsWhitespace)

/-- One pass of the splitting loop of `streamEvents` / `q` / `observeEvents`
(client.ts lines 107–109, 364–366, 434–436): repeatedly find the first
newline in the buffer, emit the slice before it, and continue with the
slice after it.  Returns the emitted raw segments (before trimming) and the
final buffer.  Written by structural recursion on the buffer; the theorems
`extract_nil_of_no_newline` and `extract_append_newline` restate it in the
source's first-newline form. -/
def extract : List Char → List (List Char) × List Char
  | [] => ([], [])
  | c :: rest =>
    let p := extract rest
    if c = '\n' then ([] :: p.1, p.2)
    else
      match p.1 with
      | [] => ([], c :: p.2)
      | l :: ls => ((c :: l) :: ls, p.2)

/-- A buffer with no newline yields no line: the loop guard
`buffer.indexOf('\n') >= 0` fails at once. -/
theorem extract_nil_of_no_newline (buf : List Char) (h : ∀ c ∈ buf, c ≠ '\n') :
    extract buf = ([], buf) := by
  induction buf with
  | nil => rfl
  | cons c rest ih =>
    have hc : c ≠ '\n' := h c (List.mem_cons_self c rest)
    have hr := ih (fun x hx => h x (List.mem_cons_of_mem c hx))
    simp [extract, hr, hc]

/-- When the buffer is `a ++ '\n' :: rest` with no newline in `a`, the loop
slices off exactly `a` (the prefix before the first newline) and continues
on `rest`: the source's `line = buffer.slice(0, i); buffer = buffer.slice(i+1)`. -/
theorem extract_append_newline (a rest : List Char) (h : ∀ c ∈ a, c ≠ '\n') :
    extract (a ++ '\n' :: rest) = (a :: (extract rest).1, (extract rest).2) := by
  induction a with
  | nil => simp [extract]
  | cons c a' ih =>
    have hc : c ≠ '\n' := h c (List.mem_cons_self c a')
    have hr := ih (fun x hx => h x (List.mem_cons_of_mem c hx))
    simp only [List.cons_append, extract, if_neg hc, List.append_eq]
    rw [hr]

/-- The buffer left over by the loop never contains a newline. -/
theorem extract_buffer_no_newline (buf : List Char) :
    ∀ c ∈ (extract buf).2, c ≠ '\n' := by
  induction buf with
  | nil => intro c hc; simp [extract] at hc
  | cons c rest ih =>
    intro x hx
    by_cases hc : c = '\n'
    · simp [extract, hc] at hx
      exact ih x hx
    · simp only [extract, if_neg hc] at hx
      cases hp : (extract rest).1 with
      | nil =>
        simp [hp] at hx
        rcases hx with hx | hx
        · subst hx
          exact hc
        · exact ih x hx
      | cons l ls =>
        simp [hp] at hx
        exact ih x hx

/-- Every character of an extracted line occurs in the buffer it was
extracted from. -/
theorem extract_line_chars_mem (buf : List Char) :
    ∀ l ∈ (extract buf).1, ∀ c ∈ l, c ∈ buf := by
  induction buf with
  | nil => intro l hl; simp [extract] at hl
  | cons b rest ih =>
    intro l hl c hc
    by_cases hb : b = '\n'
    · simp [extract, hb] at hl
      rcases hl with hl | hl
      · subst hl; simp at hc
      · exact List.mem_cons_of_mem b (ih l hl c hc)
    · simp only [extract, if_neg hb] at hl
      cases hp : (extract rest).1 with
      | nil => rw [hp] at hl; simp at hl
      | cons t ts =>
        rw [hp] at hl
        simp only [List.mem_cons] at hl
        rcases hl with hl | hl
        · subst hl
          rcases List.mem_cons.mp hc with hc | hc
          · rw [hc]; exact List.mem_cons_self b rest
          · have ht : t ∈ (extract rest).1 := by
              rw [hp]; exact List.mem_cons_self t ts
            exact List.mem_cons_of_mem b (ih t ht c hc)
        · have hl' : l ∈ (extract rest).1 := by
            rw [hp]; exact List.mem_cons_of_mem t hl
          exact List.mem_cons_of_mem b (ih l hl' c hc)

/-- Splitting composes across an append: running the loop on `a ++ b` emits
the lines of `a` followed by the lines of `a`'s leftover buffer prepended to
`b`.  This is the heart of fragmentation invariance. -/
theorem extract_append (a b : List Char) :
    extract (a ++ b) =
      ((extract a).1 ++ (extract ((extract a).2 ++ b)).1,
        (extract ((extract a).2 ++ b)).2) := by
  induction a with
  | nil => simp [extract]
  | cons c a' ih =>
    by_cases hc : c = '\n'
    · subst hc
      simp only [List.cons_append, extract, if_pos rfl, ih]
      simp [ih]
    · simp only [List.cons_append, extract, if_neg hc, List.append_eq]
      rw [ih]
      cases hp : (extract a').1 with
      | nil =>
        simp only [hp, List.nil_append]
        cases hX : (extract ((extract a').2 ++ b)).1 with
        | nil => simp [hX, extract, if_neg hc]
        | cons l ls => simp [hX, extract, if_neg hc]
      | cons l ls =>
        simp [hp]

/-- The buffer-and-split loop as driven by a read path: fragments arrive one
at a time, each is appended to the carried buffer, and all complete lines
are extracted before the next fragment is awaited.  Returns all emitted
lines in order and the final (discarded) buffer. -/
def feedAll : List Char → List (List Char) → List (List Char) × List Char
  | buf, [] => ([], buf)
  | buf, f :: fs =>
    let p := extract (buf ++ f)
    let r := feedAll p.2 fs
    (p.1 ++ r.1, r.2)

/-- Feeding fragments one at a time is the same as splitting their
concatenation, provided the carried buffer holds no newline (which the loop
guarantees, `extract_buffer_no_newline`). -/
theorem feedAll_eq_extract (frags : List (List Char)) (buf : List Char)
    (h : ∀ c ∈ buf, c ≠ '\n') :
    feedAll buf frags = extract (buf ++ frags.flatten) := by
  induction frags generalizing buf with
  | nil =>
    simp [feedAll, extract_nil_of_no_newline buf h]
  | cons f fs ih =>
    have hbuf := extract_buffer_no_newline (buf ++ f)
    simp only [feedAll, List.flatten_cons]
    rw [ih (extract (buf ++ f)).2 hbuf]
    rw [show buf ++ (f ++ fs.flatten) = (buf ++ f) ++ fs.flatten by simp]
    rw [extract_append (buf ++ f) fs.flatten]

/-- Trimming to the empty string happens exactly when every character is
JavaScript whitespace. -/
theorem trimChars_eq_nil_iff (s : List Char) :
    trimChars s = [] ↔ ∀ c ∈ s, isJsWhitespace c = true := by
  unfold trimChars
  rw [List.rdropWhile_eq_nil_iff]
  constructor
  · intro h c hc
    rcases List.mem_append.mp
        ((List.takeWhile_append_dropWhile isJsWhitespace s) ▸ hc) with h1 | h1
    · exact List.mem_takeWhile_imp h1
    · exact h c h1
  · intro h c hc
    exact h c ((List.dropWhile_suffix isJsWhitespace).mem hc)

/-- The SSE framing text `"data: "` accepted by the observation path. -/
def sseData : List Char := "data: ".toList

/-- Per-line body of the splitting loop in `streamEvents` (client.ts lines
108–120): trim the slice, skip it if blank, `JSON.parse` it, and construct a
`CloudEvent`; a thrown parse or construction error is caught and the line is
skipped (`none`). -/
def streamHandle {E : Type} (parse : List Char → Option Json)
    (mk : Json → Option E) (seg : List Char) : Option E :=
  let line := trimChars seg
  if line.isEmpty then none
  else
    match parse line with
    | none => none
    | some j => mk j

/-- Per-line body of the splitting loop in `q` (client.ts lines 365–376):
like `streamHandle` but the parsed JSON value is kept raw, with no event
construction. -/
def qHandle (parse : List Char → Option Json) (seg : List Char) :
    Option Json :=
  let line := trimChars seg
  if line.isEmpty then none else parse line

/-- Text handed to `JSON.parse` by `observeEvents` for a given slice: the
trimmed line, minus the leading 6 characters `"data: "` when the trimmed
line starts with them (client.ts line 441). -/
def observePayloadOf (seg : List Char) : List Char :=
  let line := trimChars seg
  if sseData.isPrefixOf line then line.drop 6 else line

/-- Keep-alive test of `observeEvents` in the shipped build
(dist/client.js, src/unnamed/part_000 lines 421–423):
`json.payload === '' && Object.keys(json).length === 1`.  True exactly for
an object whose single key is `payload` with the empty string as value
(`JSON.parse` never yields duplicate keys, so a one-field object is one
with `Object.keys(json).length === 1`). -/
def isKeepAlive : Json → Bool
  | .obj [("payload", .str "")] => true
  | _ => false

/-- Per-line body of the splitting loop in `observeEvents` (client.ts lines
435–450 and src/unnamed/part_000 lines 413–431): trim, skip blanks, strip
the `"data: "` framing, parse, drop keep-alive records, construct and yield
a `CloudEvent`.  A parsed `null` is also skipped: the member access
`json.payload` throws on `null` and the error is caught.  The keep-alive
guard appears in the shipped build only; in the TypeScript source the same
record is skipped one step later, when `CloudEvent` construction throws on
an envelope with no `source`/`type` (modelled by `mk` returning `none`). -/
def observeHandle {E : Type} (parse : List Char → Option Json)
    (mk : Json → Option E) (seg : List Char) : Option E :=
  let line := trimChars seg
  if line.isEmpty then none
  else
    match parse (observePayloadOf seg) with
    | none => none
    | some .null => none
    | some j => if isKeepAlive j then none else mk j

/-- Output of one read-path drain: every extracted line run through the
per-line body, in order; lines the body skips contribute nothing. -/
def runFrags {E : Type} (handle : List Char → Option E)
    (frags : List (List Char)) : List E :=
  (feedAll [] frags).1.filterMap handle

/-- Transport response for the bulk paths (`streamEvents`, `q`,
`commitEvents`): success flag, status line, and the fully buffered text
body (`await res.text()`). -/
structure BulkResponse where
  ok : Bool
  status : Nat
  statusText : String
  body : List Char

/-- Transport response for `observeEvents`: the body is an incrementally
read sequence of fragments, and may be absent (`res.body` null). -/
structure ObserveResponse where
  ok : Bool
  status : Nat
  statusText : String
  body : Option (List (List Char))

/-- Errors a read or commit path can throw: the `API Error` raised on a
non-success status (carrying `res.status` and `res.statusText`), and the
`Response body is null` error of `observeEvents`. -/
inductive ClientError where
  | apiError (status : Nat) (statusText : String) : ClientError
  | nullBody : ClientError

/-- Result of a full `streamEvents` call past the request (client.ts lines
73–123): non-success status throws; an empty or whitespace-only body
returns `[]` at once; otherwise the whole body is fed to the pipeline as
one fragment and the materialized events are collected. -/
def streamRun {E : Type} (parse : List Char → Option Json)
    (mk : Json → Option E) (res : BulkResponse) :
    Except ClientError (List E) :=
  if !res.ok then .error (.apiError res.status res.statusText)
  else if res.body.isEmpty || (trimChars res.body).isEmpty then .ok []
  else .ok (runFrags (streamHandle parse mk) [res.body])

/-- Result of a full `q` call past the request (client.ts lines 331–379):
same shape as `streamRun` but collecting raw JSON values. -/
def qRun (parse : List Char → Option Json) (res : BulkResponse) :
    Except ClientError (List Json) :=
  if !res.ok then .error (.apiError res.status res.statusText)
  else if res.body.isEmpty || (trimChars res.body).isEmpty then .ok []
  else .ok (runFrags (qHandle parse) [res.body])

/-- Result of a full `observeEvents` drain (client.ts lines 407–452): a
non-success status throws before anything is yielded; a null body throws;
otherwise the fragments are fed through the loop and the yielded events are
the sequence produced. -/
def observeRun {E : Type} (parse : List Char → Option Json)
    (mk : Json → Option E) (res : ObserveResponse) :
    Except ClientError (List E) :=
  if !res.ok then .error (.apiError res.status res.statusText)
  else
    match res.body with
    | none => .error .nullBody
    | some frags => .ok (runFrags (observeHandle parse mk) frags)

/-- Result of a `commitEvents` transport exchange (client.ts lines
198–219): a non-success status throws, otherwise nothing is returned. -/
def commitRun (res : BulkResponse) : Except ClientError Unit :=
  if !res.ok then .error (.apiError res.status res.statusText)
  else .ok ()

/-- A line that trims to nothing is skipped by `streamEvents`'s loop body
(`if (!line) continue`). -/
theorem streamHandle_of_trim_nil {E : Type} (parse : List Char → Option Json)
    (mk : Json → Option E) (seg : List Char) (h : trimChars seg = []) :
    streamHandle parse mk seg = none := by
  simp [streamHandle, h]

/-- A line that trims to nothing is skipped by `q`'s loop body. -/
theorem qHandle_of_trim_nil (parse : List Char → Option Json)
    (seg : List Char) (h : trimChars seg = []) :
    qHandle parse seg = none := by
  simp [qHandle, h]

/-- A line that trims to nothing is skipped by `observeEvents`'s loop body. -/
theorem observeHandle_of_trim_nil {E : Type} (parse : List Char → Option Json)
    (mk : Json → Option E) (seg : List Char) (h : trimChars seg = []) :
    observeHandle parse mk seg = none := by
  simp [observeHandle, h]

/-- Lines extracted from an all-whitespace body are all skipped: the body
consists of whitespace and newlines only, so every slice trims away. -/
theorem filterMap_extract_of_ws {E : Type} (handle : List Char → Option E)
    (body : List Char)
    (hskip : ∀ seg, trimChars seg = [] → handle seg = none)
    (hws : ∀ c ∈ body, isJsWhitespace c = true) :
    (extract body).1.filterMap handle = [] := by
  rw [List.filterMap_eq_nil_iff]
  intro l hl
  apply hskip
  rw [trimChars_eq_nil_iff]
  intro c hc
  exact hws c (extract_line_chars_mem body l hl c hc)

/-- Draining a single fragment is just splitting it. -/
theorem runFrags_single {E : Type} (handle : List Char → Option E)
    (body : List Char) :
    runFrags handle [body] = (extract body).1.filterMap handle := by
  simp [runFrags, feedAll]

/-- On a success response, `streamEvents` returns exactly the events its
loop body accepts from the extracted lines, whether or not the
empty-body short-circuit fires (an empty or whitespace-only body has no
acceptable line). -/
theorem streamRun_ok {E : Type} (parse : List Char → Option Json)
    (mk : Json → Option E) (st : Nat) (sx : String) (body : List Char) :
    streamRun parse mk ⟨true, st, sx, body⟩ =
      .ok ((extract body).1.filterMap (streamHandle parse mk)) := by
  unfold streamRun
  simp only [Bool.not_true, Bool.false_eq_true, if_false, runFrags_single]
  by_cases hb : body.isEmpty || (trimChars body).isEmpty
  · rw [if_pos hb]
    rcases Bool.or_eq_true_iff.mp hb with h | h
    · rw [List.isEmpty_iff.mp h]
      rfl
    · rw [filterMap_extract_of_ws _ body
        (streamHandle_of_trim_nil parse mk)
        ((trimChars_eq_nil_iff body).mp (List.isEmpty_iff.mp h))]
  · rw [if_neg hb]

/-- On a success response, `q` returns exactly the raw values its loop body
accepts from the extracted lines. -/
theorem qRun_ok (parse : List Char → Option Json) (st : Nat) (sx : String)
    (body : List Char) :
    qRun parse ⟨true, st, sx, body⟩ =
      .ok ((extract body).1.filterMap (qHandle parse)) := by
  unfold qRun
  simp only [Bool.not_true, Bool.false_eq_true, if_false, runFrags_single]
  by_cases hb : body.isEmpty || (trimChars body).isEmpty
  · rw [if_pos hb]
    rcases Bool.or_eq_true_iff.mp hb with h | h
    · rw [List.isEmpty_iff.mp h]
      rfl
    · rw [filterMap_extract_of_ws _ body
        (qHandle_of_trim_nil parse)
        ((trimChars_eq_nil_iff body).mp (List.isEmpty_iff.mp h))]
  · rw [if_neg hb]

/-- On a success response with a present body, `observeEvents` yields
exactly the events its loop body accepts from the lines extracted across
all fragments. -/
theorem observeRun_ok {E : Type} (parse : List Char → Option Json)
    (mk : Json → Option E) (st : Nat) (sx : String)
    (frags : List (List Char)) :
    observeRun parse mk ⟨true, st, sx, some frags⟩ =
      .ok ((feedAll [] frags).1.filterMap (observeHandle parse mk)) := by
  rfl

/-- Joining lines with trailing newlines: the body a server sends for a
given record sequence. -/
def joinLines (ls : List (List Char)) : List Char :=
  (ls.map (fun l => l ++ ['\n'])).flatten

/-- Splitting a newline-joined body recovers exactly the lines and leaves
an empty buffer. -/
theorem extract_joinLines (ls : List (List Char))
    (h : ∀ l ∈ ls, ∀ c ∈ l, c ≠ '\n') :
    extract (joinLines ls) = (ls, []) := by
  induction ls with
  | nil => rfl
  | cons l rest ih =>
    have hl := h l (List.mem_cons_self l rest)
    have hrest := ih (fun x hx => h x (List.mem_cons_of_mem l hx))
    simp only [joinLines, List.map_cons, List.flatten_cons]
    rw [show (l ++ ['\n']) ++ (rest.map (fun l => l ++ ['\n'])).flatten =
        l ++ '\n' :: (rest.map (fun l => l ++ ['\n'])).flatten by simp]
    rw [extract_append_newline l _ hl]
    rw [show (rest.map (fun l => l ++ ['\n'])).flatten = joinLines rest from rfl]
    rw [hrest]

/-- An event passed to `commitEvents`.  The TypeScript parameter type lists
`source`, `subject`, `type`, `data` and an optional `options`; structural
typing lets a caller pass an object carrying further fields, modelled by
`extra` (the request construction never reads them). -/
structure InputEvent where
  source : String
  subject : String
  type : String
  data : Json
  options : Option Json
  extra : List (String × Json)

/-- The JSON object built for one input event (client.ts lines 179–189):
exactly `source`, `subject`, `type`, `data`, plus `options` copied verbatim
when present (`if (event.options)`); nothing else from the input object is
copied. -/
def commitEventData (e : InputEvent) : Json :=
  Json.obj
    ([("source", .str e.source), ("subject", .str e.subject),
      ("type", .str e.type), ("data", e.data)] ++
      (match e.options with
       | some o => [("options", o)]
       | none => []))

/-- The full `commitEvents` request body (client.ts lines 178–195): an
`events` array, and a `preconditions` array copied verbatim only when the
argument is supplied and non-empty
(`if (preconditions && preconditions.length > 0)`). -/
def commitRequestBody (events : List InputEvent)
    (preconditions : Option (List Json)) : Json :=
  let base := [("events", Json.arr (events.map commitEventData))]
  Json.obj
    (match preconditions with
     | some ps => if ps.length > 0 then base ++ [("preconditions", Json.arr ps)] else base
     | none => base)

/-- Keys of a JSON object, in order (`Object.keys`). -/
def objKeys : Json → List String
  | .obj fields => fields.map Prod.fst
  | _ => []

/-- A string untouched by `trim` also has no leading whitespace to drop. -/
theorem dropWhile_eq_self_of_trim_self (l : List Char) (h : trimChars l = l) :
    l.dropWhile isJsWhitespace = l := by
  have hsuf : l.dropWhile isJsWhitespace <:+ l := List.dropWhile_suffix _
  apply hsuf.eq_of_length
  have h1 : (List.rdropWhile isJsWhitespace (l.dropWhile isJsWhitespace)).length ≤
      (l.dropWhile isJsWhitespace).length := by
    have hsub := (List.dropWhile_suffix
      (l := (l.dropWhile isJsWhitespace).reverse) isJsWhitespace).length_le
    simpa [List.rdropWhile] using hsub
  have h2 : (l.dropWhile isJsWhitespace).length ≤ l.length := hsuf.length_le
  have h3 : (List.rdropWhile isJsWhitespace (l.dropWhile isJsWhitespace)).length = l.length := by
    rw [show List.rdropWhile isJsWhitespace (l.dropWhile isJsWhitespace) = trimChars l from rfl, h]
  omega

/-- A string untouched by `trim` also has no trailing whitespace to drop. -/
theorem rdropWhile_eq_self_of_trim_self (l : List Char) (h : trimChars l = l) :
    List.rdropWhile isJsWhitespace l = l := by
  have hd := dropWhile_eq_self_of_trim_self l h
  have : trimChars l = List.rdropWhile isJsWhitespace l := by
    unfold trimChars; rw [hd]
  rw [← this, h]

/-- Prepending the non-whitespace framing text `"data: "` to a trim-stable,
non-empty string gives another trim-stable string: the observation loop's
`trim` does not disturb the framing prefix or the record. -/
theorem trimChars_sse_append (r : List Char) (h : trimChars r = r)
    (hne : r ≠ []) : trimChars (sseData ++ r) = sseData ++ r := by
  have hrdrop := rdropWhile_eq_self_of_trim_self r h
  have h1 : (sseData ++ r).dropWhile isJsWhitespace = sseData ++ r := by
    rw [show sseData ++ r = 'd' :: ("ata: ".toList ++ r) from rfl]
    rw [List.dropWhile_cons]
    simp [show isJsWhitespace 'd' = false from by decide]
  have hdwrev : List.dropWhile isJsWhitespace r.reverse = r.reverse := by
    have h0 : (List.dropWhile isJsWhitespace r.reverse).reverse = r := hrdrop
    have := congrArg List.reverse h0
    rwa [List.reverse_reverse] at this
  obtain ⟨c, t, hr⟩ : ∃ c t, r.reverse = c :: t := by
    cases hrev : r.reverse with
    | nil => exact absurd (List.reverse_eq_nil_iff.mp hrev) hne
    | cons c t => exact ⟨c, t, rfl⟩
  have hpc : isJsWhitespace c = false := by
    by_contra hp
    have hp' : isJsWhitespace c = true := by
      cases hq : isJsWhitespace c
      · exact absurd hq hp
      · rfl
    rw [hr, List.dropWhile_cons, if_pos hp'] at hdwrev
    have hlen := congrArg List.length hdwrev
    have hle : (List.dropWhile isJsWhitespace t).length ≤ t.length :=
      (List.dropWhile_suffix _).length_le
    simp at hlen
    omega
  have h2 : List.rdropWhile isJsWhitespace (sseData ++ r) = sseData ++ r := by
    unfold List.rdropWhile
    rw [List.reverse_append, hr, List.cons_append, List.dropWhile_cons,
      if_neg (by simp [hpc])]
    rw [show c :: (t ++ sseData.reverse) = (c :: t) ++ sseData.reverse from rfl]
    rw [List.reverse_append, List.reverse_reverse, ← hr, List.reverse_reverse]
  unfold trimChars
  rw [h1, h2]

/-- Appending newline-free text to a body adds no extracted line: it only
grows the final buffer. -/
theorem extract_fst_append_no_newline (A tail : List Char)
    (h : ∀ c ∈ tail, c ≠ '\n') :
    (extract (A ++ tail)).1 = (extract A).1 := by
  rw [extract_append]
  rw [extract_nil_of_no_newline ((extract A).2 ++ tail)
    (fun c hc => (List.mem_append.mp hc).elim
      (extract_buffer_no_newline A c) (h c))]
  simp

/-- C2: line-splitting is fragmentation-invariant — feeding a text to the
buffer-and-split loop as any sequence of fragments yields the same emitted
lines, in the same order, and the same final buffer, as feeding the whole
text as one fragment. -/
theorem fragmentation_invariant (frags : List (List Char)) :
    feedAll [] frags = feedAll [] [frags.flatten] := by
  rw [feedAll_eq_extract frags [] (by simp)]
  simp [feedAll, List.nil_append]

/-- C6: a non-success transport response makes `streamEvents`, `q`,
`commitEvents` and `observeEvents` throw the `API Error` built from the
response status, with no partial result: the error value carries no events
or records. -/
theorem non_ok_response_throws {E : Type} (parse : List Char → Option Json)
    (mk : Json → Option E) (res : BulkResponse) (ores : ObserveResponse)
    (h : res.ok = false) (h2 : ores.ok = false) :
    streamRun parse mk res = .error (.apiError res.status res.statusText) ∧
    qRun parse res = .error (.apiError res.status res.statusText) ∧
    commitRun res = .error (.apiError res.status res.statusText) ∧
    observeRun parse mk ores = .error (.apiError ores.status ores.statusText) := by
  refine ⟨?_, ?_, ?_, ?_⟩ <;> simp [streamRun, qRun, commitRun, observeRun, h, h2]

/-- Witness for C6 at a concrete 500 response. -/
theorem non_ok_response_throws_witness :
    (BulkResponse.mk false 500 "Internal Server Error" []).ok = false ∧
    streamRun (fun _ => none) (fun j => some j)
        (BulkResponse.mk false 500 "Internal Server Error" []) =
      .error (.apiError 500 "Internal Server Error") := by
  exact ⟨rfl,
    (non_ok_response_throws (fun _ => none) (fun j => some j)
      (BulkResponse.mk false 500 "Internal Server Error" [])
      (ObserveResponse.mk false 500 "Internal Server Error" none)
      rfl rfl).1⟩

/-- C7: a historical fetch whose response body is empty returns the empty
list at once, for every parse function and every event constructor — the
decoding pipeline is never consulted. -/
theorem empty_body_short_circuit {E : Type} (parse : List Char → Option Json)
    (mk : Json → Option E) (st : Nat) (sx : String) :
    streamRun parse mk ⟨true, st, sx, []⟩ = .ok [] := by
  rfl

/-- C10: the short-circuit of `streamEvents` and `q` tests the trimmed
body: every all-whitespace response body — not only the strictly empty
one — yields the empty list, for every parse function and constructor. -/
theorem whitespace_body_short_circuit {E : Type}
    (parse : List Char → Option Json) (mk : Json → Option E)
    (st : Nat) (sx : String) (body : List Char)
    (hws : ∀ c ∈ body, isJsWhitespace c = true) :
    streamRun parse mk ⟨true, st, sx, body⟩ = .ok [] ∧
    qRun parse ⟨true, st, sx, body⟩ = .ok [] := by
  constructor
  · rw [streamRun_ok, filterMap_extract_of_ws _ body
      (streamHandle_of_trim_nil parse mk) hws]
  · rw [qRun_ok, filterMap_extract_of_ws _ body
      (qHandle_of_trim_nil parse) hws]

/-- Witness for C10 at the concrete body of two spaces, a tab and two
newlines. -/
theorem whitespace_body_short_circuit_witness :
    (" \t\n \n".toList.all isJsWhitespace = true) ∧
    streamRun (fun _ => some (Json.num 7)) (fun j => some j)
        ⟨true, 200, "OK", " \t\n \n".toList⟩ = .ok [] ∧
    qRun (fun _ => some (Json.num 7)) ⟨true, 200, "OK", " \t\n \n".toList⟩ =
      .ok [] := by
  refine ⟨by decide, ?_⟩
  exact whitespace_body_short_circuit (fun _ => some (Json.num 7))
    (fun j => some j) 200 "OK" " \t\n \n".toList (by decide)

/-- C9: the body `commitEvents` sends contains, for each input event,
exactly the fields `source`, `subject`, `type`, `data`, plus `options` only
when present on the input; any other field carried by the input event is
dropped (the encoding ignores `extra` entirely); and the `preconditions`
field is present exactly when the argument is supplied and non-empty. -/
theorem commit_body_shape (events : List InputEvent)
    (pre : Option (List Json)) (e : InputEvent) (x : List (String × Json)) :
    commitEventData { e with extra := x } = commitEventData e ∧
    objKeys (commitEventData e) =
      ["source", "subject", "type", "data"] ++
        (match e.options with | some _ => ["options"] | none => []) ∧
    objKeys (commitRequestBody events pre) =
      (match pre with
       | some ps => if ps.length > 0 then ["events", "preconditions"] else ["events"]
       | none => ["events"]) := by
  refine ⟨rfl, ?_, ?_⟩
  · cases ho : e.options <;> simp [commitEventData, objKeys, ho]
  · cases pre with
    | none => simp [commitRequestBody, objKeys]
    | some ps =>
      by_cases hp : ps.length > 0 <;> simp [commitRequestBody, objKeys, hp]

/-- A line whose trimmed text fails `JSON.parse` is skipped by
`streamEvents`'s loop body: the thrown error is caught and logged. -/
theorem streamHandle_of_parse_none {E : Type} (parse : List Char → Option Json)
    (mk : Json → Option E) (seg : List Char)
    (h : parse (trimChars seg) = none) :
    streamHandle parse mk seg = none := by
  simp [streamHandle, h]

/-- A line whose trimmed text fails `JSON.parse` is skipped by `q`'s loop
body. -/
theorem qHandle_of_parse_none (parse : List Char → Option Json)
    (seg : List Char) (h : parse (trimChars seg) = none) :
    qHandle parse seg = none := by
  simp [qHandle, h]

/-- A line whose framing-stripped text fails `JSON.parse` is skipped by
`observeEvents`'s loop body. -/
theorem observeHandle_of_parse_none {E : Type}
    (parse : List Char → Option Json) (mk : Json → Option E)
    (seg : List Char) (h : parse (observePayloadOf seg) = none) :
    observeHandle parse mk seg = none := by
  simp [observeHandle, h]

/-- Removing a skipped line from a line sequence leaves the loop output
unchanged. -/
theorem filterMap_erase_none {O : Type} (handle : List Char → Option O)
    (L1 L2 : List (List Char)) (bad : List Char) (hb : handle bad = none) :
    (L1 ++ bad :: L2).filterMap handle = (L1 ++ L2).filterMap handle := by
  simp [List.filterMap_append, List.filterMap_cons, hb]

/-- C1: a line that fails JSON parsing is skipped and processing continues.
In `streamEvents`, `q` and `observeEvents` a malformed line contributes no
output element and does not make the call throw — the call still succeeds
with exactly the outputs of the remaining lines, before and after the bad
one. -/
theorem malformed_line_isolated {E : Type} (parse : List Char → Option Json)
    (mk : Json → Option E) (L1 L2 : List (List Char)) (bad : List Char)
    (st : Nat) (sx : String)
    (hnl : ∀ l ∈ L1 ++ bad :: L2, ∀ c ∈ l, c ≠ '\n')
    (hbad : parse (trimChars bad) = none)
    (hbad2 : parse (observePayloadOf bad) = none) :
    streamRun parse mk ⟨true, st, sx, joinLines (L1 ++ bad :: L2)⟩ =
      .ok ((L1 ++ L2).filterMap (streamHandle parse mk)) ∧
    qRun parse ⟨true, st, sx, joinLines (L1 ++ bad :: L2)⟩ =
      .ok ((L1 ++ L2).filterMap (qHandle parse)) ∧
    observeRun parse mk ⟨true, st, sx, some [joinLines (L1 ++ bad :: L2)]⟩ =
      .ok ((L1 ++ L2).filterMap (observeHandle parse mk)) := by
  have hex := extract_joinLines (L1 ++ bad :: L2) hnl
  refine ⟨?_, ?_, ?_⟩
  · rw [streamRun_ok, hex]
    exact congrArg Except.ok (filterMap_erase_none _ L1 L2 bad
      (streamHandle_of_parse_none parse mk bad hbad))
  · rw [qRun_ok, hex]
    exact congrArg Except.ok (filterMap_erase_none _ L1 L2 bad
      (qHandle_of_parse_none parse bad hbad))
  · rw [show observeRun parse mk
        ⟨true, st, sx, some [joinLines (L1 ++ bad :: L2)]⟩ =
        .ok (runFrags (observeHandle parse mk)
          [joinLines (L1 ++ bad :: L2)]) from rfl,
      runFrags_single, hex]
    exact congrArg Except.ok (filterMap_erase_none _ L1 L2 bad
      (observeHandle_of_parse_none parse mk bad hbad2))

/-- Parse function used by witnesses: accepts exactly the text
`{"a": 1}`. -/
def wParse : List Char → Option Json := fun s =>
  if s = "\x7b\"a\": 1\x7d".toList then some (.obj [("a", .num 1)]) else none

/-- Witness for C1: the body `{"a": 1}\nnot json\n` produces exactly the
one good event on all three paths. -/
theorem malformed_line_isolated_witness :
    wParse (trimChars "not json".toList) = none ∧
    streamRun wParse (fun j => some j)
        ⟨true, 200, "OK",
          joinLines ["\x7b\"a\": 1\x7d".toList, "not json".toList]⟩ =
      .ok (["\x7b\"a\": 1\x7d".toList].filterMap
        (streamHandle wParse (fun j => some j))) := by
  refine ⟨rfl, ?_⟩
  exact (malformed_line_isolated wParse (fun j => some j)
    ["\x7b\"a\": 1\x7d".toList] [] "not json".toList 200 "OK"
    (by decide) rfl rfl).1

/-- C4: content after the last newline of a response body — a final line
that is never newline-terminated — is discarded at end-of-source on all
three paths, even if it is a well-formed JSON record: the result with the
trailing fragment equals the result without it. -/
theorem trailing_fragment_discarded {E : Type}
    (parse : List Char → Option Json) (mk : Json → Option E)
    (st : Nat) (sx : String) (T tail : List Char)
    (htail : ∀ c ∈ tail, c ≠ '\n') :
    streamRun parse mk ⟨true, st, sx, (T ++ ['\n']) ++ tail⟩ =
      streamRun parse mk ⟨true, st, sx, T ++ ['\n']⟩ ∧
    qRun parse ⟨true, st, sx, (T ++ ['\n']) ++ tail⟩ =
      qRun parse ⟨true, st, sx, T ++ ['\n']⟩ ∧
    observeRun parse mk ⟨true, st, sx, some [(T ++ ['\n']) ++ tail]⟩ =
      observeRun parse mk ⟨true, st, sx, some [T ++ ['\n']]⟩ := by
  have hfst := extract_fst_append_no_newline (T ++ ['\n']) tail htail
  refine ⟨?_, ?_, ?_⟩
  · rw [streamRun_ok, streamRun_ok, hfst]
  · rw [qRun_ok, qRun_ok, hfst]
  · rw [show observeRun parse mk ⟨true, st, sx, some [(T ++ ['\n']) ++ tail]⟩ =
        .ok (runFrags (observeHandle parse mk) [(T ++ ['\n']) ++ tail]) from rfl,
      show observeRun parse mk ⟨true, st, sx, some [T ++ ['\n']]⟩ =
        .ok (runFrags (observeHandle parse mk) [T ++ ['\n']]) from rfl,
      runFrags_single, runFrags_single, hfst]

/-- Witness for C4: a trailing well-formed record `{"a": 1}` (not
newline-terminated) after the body `{"a": 1}\n` changes nothing, although
the parse function accepts it. -/
theorem trailing_fragment_discarded_witness :
    ("\x7b\"a\": 1\x7d".toList.all (fun c => c ≠ '\n') = true) ∧
    streamRun wParse (fun j => some j)
        ⟨true, 200, "OK",
          ("\x7b\"a\": 1\x7d".toList ++ ['\n']) ++ "\x7b\"a\": 1\x7d".toList⟩ =
      streamRun wParse (fun j => some j)
        ⟨true, 200, "OK", "\x7b\"a\": 1\x7d".toList ++ ['\n']⟩ := by
  refine ⟨by decide, ?_⟩
  exact (trailing_fragment_discarded wParse (fun j => some j) 200 "OK"
    "\x7b\"a\": 1\x7d".toList "\x7b\"a\": 1\x7d".toList (by decide)).1

/-- The keep-alive record on the wire: the text `{"payload": ""}`. -/
def kaChars : List Char := "\x7b\"payload\": \"\"\x7d".toList

/-- What `JSON.parse` returns for `kaChars`: an object whose only key is
`payload`, holding the empty string. -/
def kaJson : Json := .obj [("payload", .str "")]

/-- C3: on the observation path (tolerant mode) the record
`{"payload": ""}` is recognized as a keep-alive and yields no event, for
every event constructor; the same record on the query path (strict mode)
yields exactly one raw value. -/
theorem keep_alive_suppressed {E : Type} (parse : List Char → Option Json)
    (mk : Json → Option E) (st : Nat) (sx : String)
    (hparse : parse kaChars = some kaJson) :
    observeRun parse mk ⟨true, st, sx, some [kaChars ++ ['\n']]⟩ = .ok [] ∧
    qRun parse ⟨true, st, sx, kaChars ++ ['\n']⟩ = .ok [kaJson] := by
  have hka : ∀ c ∈ kaChars, c ≠ '\n' := by decide
  have htr : trimChars kaChars = kaChars := by decide
  have hemp : kaChars.isEmpty = false := by decide
  have hex : extract (kaChars ++ ['\n']) = ([kaChars], []) := by
    rw [show kaChars ++ ['\n'] = kaChars ++ '\n' :: [] from rfl,
      extract_append_newline kaChars [] hka]
    rfl
  constructor
  · rw [show observeRun parse mk ⟨true, st, sx, some [kaChars ++ ['\n']]⟩ =
        .ok (runFrags (observeHandle parse mk) [kaChars ++ ['\n']]) from rfl,
      runFrags_single, hex]
    have hpay : observePayloadOf kaChars = kaChars := by
      simp [observePayloadOf, htr,
        show sseData.isPrefixOf kaChars = false from by decide]
    have hh : observeHandle parse mk kaChars = none := by
      unfold observeHandle
      simp only [htr, hemp, hpay, hparse, Bool.false_eq_true, if_false, kaJson]
      rfl
    simp [hh]
  · rw [qRun_ok, hex]
    have hh : qHandle parse kaChars = some kaJson := by
      unfold qHandle
      simp only [htr, hemp, hparse, Bool.false_eq_true, if_false]
    simp [hh]

/-- Parse function for the C3 witness: accepts exactly the keep-alive
record. -/
def kaParse : List Char → Option Json := fun s =>
  if s = kaChars then some kaJson else none

/-- Witness for C3 at the concrete keep-alive line. -/
theorem keep_alive_suppressed_witness :
    kaParse kaChars = some kaJson ∧
    observeRun kaParse (fun j => some j)
        ⟨true, 200, "OK", some [kaChars ++ ['\n']]⟩ = .ok [] ∧
    qRun kaParse ⟨true, 200, "OK", kaChars ++ ['\n']⟩ = .ok [kaJson] := by
  exact ⟨rfl, keep_alive_suppressed kaParse (fun j => some j) 200 "OK" rfl⟩

/-- The `startsWith` test succeeds on any continuation of its needle. -/
theorem isPrefixOf_append_self (l t : List Char) :
    l.isPrefixOf (l ++ t) = true := by
  induction l with
  | nil => simp [List.isPrefixOf]
  | cons c cs ih => simp [List.isPrefixOf, ih]

/-- The observation loop hands `JSON.parse` exactly the trimmed line with
the leading `"data: "` framing removed. -/
theorem observePayloadOf_sse_append (r : List Char) (h : trimChars r = r)
    (hne : r ≠ []) : observePayloadOf (sseData ++ r) = r := by
  unfold observePayloadOf
  simp only [trimChars_sse_append r h hne, isPrefixOf_append_self, if_true]
  rw [show (6 : Nat) = sseData.length from rfl]
  exact List.drop_left sseData r

/-- C5: on the observation path, a line that is `"data: "` followed by a
record is handled exactly like the bare record — the framing prefix is
stripped before JSON parsing and everything downstream is unchanged, both
for the single line and for a whole drain containing it. -/
theorem sse_framing_stripped {E : Type} (parse : List Char → Option Json)
    (mk : Json → Option E) (st : Nat) (sx : String) (r : List Char)
    (h : trimChars r = r) (hne : r ≠ [])
    (hnp : sseData.isPrefixOf r = false) (hnl : ∀ c ∈ r, c ≠ '\n') :
    observeHandle parse mk (sseData ++ r) = observeHandle parse mk r ∧
    observeRun parse mk ⟨true, st, sx, some [(sseData ++ r) ++ ['\n']]⟩ =
      observeRun parse mk ⟨true, st, sx, some [r ++ ['\n']]⟩ := by
  have hre : r.isEmpty = false := by
    cases r with
    | nil => exact absurd rfl hne
    | cons a l => rfl
  have hpay2 : observePayloadOf r = r := by
    unfold observePayloadOf
    simp [h, hnp]
  have hmain : observeHandle parse mk (sseData ++ r) =
      observeHandle parse mk r := by
    unfold observeHandle
    simp only [trimChars_sse_append r h hne, h,
      observePayloadOf_sse_append r h hne, hpay2, hre,
      show (sseData ++ r).isEmpty = false from rfl,
      Bool.false_eq_true, if_false]
  refine ⟨hmain, ?_⟩
  have hsnl : ∀ c ∈ sseData ++ r, c ≠ '\n' := by
    intro c hc
    rcases List.mem_append.mp hc with h1 | h1
    · exact (by decide : ∀ x ∈ sseData, x ≠ '\n') c h1
    · exact hnl c h1
  have hex1 : extract ((sseData ++ r) ++ ['\n']) = ([sseData ++ r], []) := by
    rw [show (sseData ++ r) ++ ['\n'] = (sseData ++ r) ++ '\n' :: [] from rfl,
      extract_append_newline (sseData ++ r) [] hsnl]
    rfl
  have hex2 : extract (r ++ ['\n']) = ([r], []) := by
    rw [show r ++ ['\n'] = r ++ '\n' :: [] from rfl,
      extract_append_newline r [] hnl]
    rfl
  rw [show observeRun parse mk
      ⟨true, st, sx, some [(sseData ++ r) ++ ['\n']]⟩ =
      .ok (runFrags (observeHandle parse mk) [(sseData ++ r) ++ ['\n']]) from
      rfl,
    show observeRun parse mk ⟨true, st, sx, some [r ++ ['\n']]⟩ =
      .ok (runFrags (observeHandle parse mk) [r ++ ['\n']]) from rfl,
    runFrags_single, runFrags_single, hex1, hex2]
  simp only [List.filterMap_cons, List.filterMap_nil, hmain]

/-- Witness for C5 at the line `data: {"a": 1}`. -/
theorem sse_framing_stripped_witness :
    trimChars "\x7b\"a\": 1\x7d".toList = "\x7b\"a\": 1\x7d".toList ∧
    observeHandle wParse (fun j => some j)
        (sseData ++ "\x7b\"a\": 1\x7d".toList) =
      observeHandle wParse (fun j => some j) "\x7b\"a\": 1\x7d".toList := by
  refine ⟨by decide, ?_⟩
  exact (sse_framing_stripped wParse (fun j => some j) 200 "OK"
    "\x7b\"a\": 1\x7d".toList (by decide) (by decide) (by decide)
    (by decide)).1

/-- C8: the bulk paths do not strip the `"data: "` framing.  A line made of
`"data: "` followed by a record is parsed whole — and, the whole line not
being valid JSON, skipped — by the loop bodies of `streamEvents` and `q`,
while the loop body of `observeEvents` strips the framing and materializes
the record. -/
theorem bulk_paths_reject_sse {E : Type} (parse : List Char → Option Json)
    (mk : Json → Option E) (r : List Char) (j : Json)
    (h : trimChars r = r) (hne : r ≠ [])
    (hfail : parse (sseData ++ r) = none) (hok : parse r = some j) :
    streamHandle parse mk (sseData ++ r) = none ∧
    qHandle parse (sseData ++ r) = none ∧
    (j ≠ .null → isKeepAlive j = false →
      observeHandle parse mk (sseData ++ r) = mk j) := by
  have htr := trimChars_sse_append r h hne
  refine ⟨streamHandle_of_parse_none parse mk _ (by rw [htr]; exact hfail),
    qHandle_of_parse_none parse _ (by rw [htr]; exact hfail), ?_⟩
  intro hjn hka
  unfold observeHandle
  simp only [htr, show (sseData ++ r).isEmpty = false from rfl,
    Bool.false_eq_true, if_false, observePayloadOf_sse_append r h hne, hok]
  cases j with
  | null => exact absurd rfl hjn
  | bool b => simp [hka]
  | num n => simp [hka]
  | str s => simp [hka]
  | arr es => simp [hka]
  | obj fs => simp [hka]

/-- Witness for C8 at the line `data: {"a": 1}`: both bulk loop bodies skip
it while the observation loop body materializes `{"a": 1}`. -/
theorem bulk_paths_reject_sse_witness :
    wParse (sseData ++ "\x7b\"a\": 1\x7d".toList) = none ∧
    wParse "\x7b\"a\": 1\x7d".toList = some (.obj [("a", .num 1)]) ∧
    streamHandle wParse (fun j => some j)
        (sseData ++ "\x7b\"a\": 1\x7d".toList) = none ∧
    qHandle wParse (sseData ++ "\x7b\"a\": 1\x7d".toList) = none := by
  have hmain := bulk_paths_reject_sse wParse (fun j => some j)
    "\x7b\"a\": 1\x7d".toList (.obj [("a", .num 1)]) (by decide) (by decide)
    rfl rfl
  exact ⟨rfl, rfl, hmain.1, hmain.2.1⟩

end GenesisDB
